import Mathlib

/-!
Formal model of the attribute/property-to-component bridging runtime (r2wc)
described by this documentation repository.  The repository under src/ holds
only the documentation site; the bridge runtime itself is not part of the
sources, so every operational definition below is modelled from the spec, as
indicated by its doc comment.
-/

/-! ## ASCII case tables -/

/-- Table of ASCII uppercase letters with their lowercase counterparts. -/
def caseTable : List (Char × Char) :=
  [('A', 'a'), ('B', 'b'), ('C', 'c'), ('D', 'd'), ('E', 'e'), ('F', 'f'),
   ('G', 'g'), ('H', 'h'), ('I', 'i'), ('J', 'j'), ('K', 'k'), ('L', 'l'),
   ('M', 'm'), ('N', 'n'), ('O', 'o'), ('P', 'p'), ('Q', 'q'), ('R', 'r'),
   ('S', 's'), ('T', 't'), ('U', 'u'), ('V', 'v'), ('W', 'w'), ('X', 'x'),
   ('Y', 'y'), ('Z', 'z')]

/-- Whether a character is an ASCII uppercase letter. -/
def isUpperA (c : Char) : Bool :=
  caseTable.any (fun p => p.1 == c)

/-- Lowercase an ASCII uppercase letter; other characters are unchanged. -/
def lowerA (c : Char) : Char :=
  match caseTable.find? (fun p => p.1 == c) with
  | some p => p.2
  | none => c

/-- Uppercase an ASCII lowercase letter; other characters are unchanged. -/
def upperA (c : Char) : Char :=
  match caseTable.find? (fun p => p.2 == c) with
  | some p => p.1
  | none => c

/-! ## The camelCase to kebab-case attribute name derivation -/

/-- Kebab expansion of a single character: an uppercase letter becomes a
hyphen followed by its lowercase form, every other character is kept. -/
def kebabChar (c : Char) : List Char :=
  if isUpperA c then ['-', lowerA c] else [c]

/-- Modelled from the spec: the camelCase to kebab-case derivation of the
attribute name of a PropSpec (section 3 invariants); the runtime source that
implements it is not in this repository. -/
def camelToKebabL : List Char → List Char
  | [] => []
  | c :: cs => kebabChar c ++ camelToKebabL cs

/-- Modelled from the spec: the inverse kebab-case to camelCase conversion
(section 3 invariants); a hyphen uppercases the following character. -/
def kebabToCamelL : List Char → List Char
  | [] => []
  | c :: r =>
    if c = '-' then
      match r with
      | [] => []
      | d :: r2 => upperA d :: kebabToCamelL r2
    else c :: kebabToCamelL r

/-- String form of the camelCase to kebab-case derivation. -/
def camelToKebab (s : String) : String :=
  String.mk (camelToKebabL s.data)

/-- String form of the kebab-case to camelCase conversion. -/
def kebabToCamel (s : String) : String :=
  String.mk (kebabToCamelL s.data)

/-! ## JSON values and the JSON text parser -/

/-- A parsed JSON value.  A number is represented exactly as a decimal
mantissa m and a scale e, denoting m divided by ten to the e. -/
inductive JsonVal where
  | null : JsonVal
  | jbool (b : Bool) : JsonVal
  | jnum (m : Int) (e : Nat) : JsonVal
  | jstr (s : String) : JsonVal
  | jarr (xs : List JsonVal) : JsonVal
  | jobj (fs : List (String × JsonVal)) : JsonVal

/-- Left brace character, written by code so that no brace appears in text. -/
def braceL : Char := Char.ofNat 123

/-- Right brace character. -/
def braceR : Char := Char.ofNat 125

/-- Skip JSON whitespace. -/
def skipWs : List Char → List Char
  | [] => []
  | c :: r =>
    if c == ' ' || c == '\t' || c == '\n' || c == '\r' then skipWs r
    else c :: r

/-- Decimal digit table. -/
def digitsTable : List (Char × Nat) :=
  [('0', 0), ('1', 1), ('2', 2), ('3', 3), ('4', 4),
   ('5', 5), ('6', 6), ('7', 7), ('8', 8), ('9', 9)]

/-- Value of a decimal digit character. -/
def digitVal (c : Char) : Option Nat :=
  (digitsTable.find? (fun p => p.1 == c)).map Prod.snd

/-- Take a maximal run of decimal digits from the front of the input. -/
def takeDigits : List Char → (List Nat × List Char)
  | [] => ([], [])
  | c :: r =>
    match digitVal c with
    | some d =>
      let p := takeDigits r
      (d :: p.1, p.2)
    | none => ([], c :: r)

/-- Combine a digit run into a natural number. -/
def natOfDigits (ds : List Nat) : Nat :=
  ds.foldl (fun a d => a * 10 + d) 0

/-- Resolve a single escaped character inside a JSON string literal. -/
def unescape (c : Char) : Char :=
  if c == 'n' then '\n'
  else if c == 't' then '\t'
  else if c == 'r' then '\r'
  else c

/-- Parse the body of a JSON string literal after the opening quote,
accumulating characters until the closing quote. -/
def parseStrBody (acc : List Char) : List Char → Option (String × List Char)
  | [] => none
  | c :: r =>
    if c == '"' then some (String.mk acc.reverse, r)
    else if c == '\\' then
      match r with
      | [] => none
      | d :: r2 => parseStrBody (unescape d :: acc) r2
    else parseStrBody (c :: acc) r

/-- Parse the fractional part of a JSON number, if present. -/
def parseFrac : List Char → Option (List Nat × List Char)
  | '.' :: r =>
    let p := takeDigits r
    if p.1.isEmpty then none else some p
  | cs => some ([], cs)

/-- Parse the exponent part of a JSON number, if present; the result is the
signed decimal exponent. -/
def parseExp : List Char → Option (Int × List Char)
  | [] => some (0, [])
  | c :: r =>
    if c == 'e' || c == 'E' then
      let sp : Int × List Char :=
        match r with
        | '-' :: r2 => (-1, r2)
        | '+' :: r2 => (1, r2)
        | _ => (1, r)
      let dp := takeDigits sp.2
      if dp.1.isEmpty then none
      else some (sp.1 * (natOfDigits dp.1 : Int), dp.2)
    else some (0, c :: r)

/-- Parse a JSON number token into a mantissa and scale pair. -/
def parseNumCore (cs : List Char) : Option ((Int × Nat) × List Char) :=
  let sp : Bool × List Char :=
    match cs with
    | '-' :: r => (true, r)
    | _ => (false, cs)
  let ip := takeDigits sp.2
  if ip.1.isEmpty then none
  else
    match parseFrac ip.2 with
    | none => none
    | some fp =>
      match parseExp fp.2 with
      | none => none
      | some ep =>
        let mantNat : Nat := natOfDigits ip.1 * 10 ^ fp.1.length + natOfDigits fp.1
        let mant : Int := if sp.1 then -(mantNat : Int) else (mantNat : Int)
        let scale : Int := ep.1 - (fp.1.length : Int)
        if 0 ≤ scale then some ((mant * 10 ^ scale.toNat, 0), ep.2)
        else some ((mant, (-scale).toNat), ep.2)

mutual

/-- Modelled from the spec: the JSON text parser used by the json kind of the
TypeCoercionEngine (section 4.1); fuel bounds the recursion depth. -/
def parseVal : Nat → List Char → Option (JsonVal × List Char)
  | 0, _ => none
  | f + 1, cs =>
    match skipWs cs with
    | 'n' :: 'u' :: 'l' :: 'l' :: r => some (.null, r)
    | 't' :: 'r' :: 'u' :: 'e' :: r => some (.jbool true, r)
    | 'f' :: 'a' :: 'l' :: 's' :: 'e' :: r => some (.jbool false, r)
    | '"' :: r =>
      match parseStrBody [] r with
      | some p => some (.jstr p.1, p.2)
      | none => none
    | '[' :: r =>
      match skipWs r with
      | ']' :: r2 => some (.jarr [], r2)
      | r2 =>
        match parseItems f r2 with
        | some p => some (.jarr p.1, p.2)
        | none => none
    | c :: r =>
      if c == braceL then
        match skipWs r with
        | [] => none
        | c2 :: r2 =>
          if c2 == braceR then some (.jobj [], r2)
          else
            match parseFields f (c2 :: r2) with
            | some p => some (.jobj p.1, p.2)
            | none => none
      else
        match parseNumCore (c :: r) with
        | some p => some (.jnum p.1.1 p.1.2, p.2)
        | none => none
    | [] => none

/-- Parse the comma separated items of a nonempty JSON array. -/
def parseItems : Nat → List Char → Option (List JsonVal × List Char)
  | 0, _ => none
  | f + 1, cs =>
    match parseVal f cs with
    | none => none
    | some p =>
      match skipWs p.2 with
      | ',' :: r2 =>
        match parseItems f r2 with
        | some q => some (p.1 :: q.1, q.2)
        | none => none
      | ']' :: r2 => some ([p.1], r2)
      | _ => none

/-- Parse the comma separated fields of a nonempty JSON object. -/
def parseFields : Nat → List Char → Option (List (String × JsonVal) × List Char)
  | 0, _ => none
  | f + 1, cs =>
    match skipWs cs with
    | '"' :: r =>
      match parseStrBody [] r with
      | none => none
      | some kp =>
        match skipWs kp.2 with
        | ':' :: r3 =>
          match parseVal f r3 with
          | none => none
          | some vp =>
            match skipWs vp.2 with
            | ',' :: r5 =>
              match parseFields f r5 with
              | some q => some ((kp.1, vp.1) :: q.1, q.2)
              | none => none
            | c :: r5 => if c == braceR then some ([(kp.1, vp.1)], r5) else none
            | [] => none
        | _ => none
    | _ => none

end

/-- Parse a complete JSON text; the whole input must be consumed. -/
def parseJsonText (s : String) : Option JsonVal :=
  match parseVal (2 * s.data.length + 2) s.data with
  | some p => if (skipWs p.2).isEmpty then some p.1 else none
  | none => none

/-- Parse a complete decimal number text; the whole input must be consumed. -/
def parseNumber (s : String) : Option (Int × Nat) :=
  match parseNumCore s.data with
  | some p => if p.2.isEmpty then some p.1 else none
  | none => none

/-! ## The data model of the bridge -/

/-- Modelled from the spec: the six recognized prop kinds (section 3); the
runtime that declares them is not in this repository. -/
inductive Kind where
  | string : Kind
  | number : Kind
  | boolean : Kind
  | function : Kind
  | method : Kind
  | json : Kind
deriving DecidableEq

/-- Modelled from the spec: the coercion error taxonomy of the
TypeCoercionEngine (sections 4.1 and 7). -/
inductive CoercionError where
  | invalidNumber : CoercionError
  | invalidBoolean : CoercionError
  | invalidJSON : CoercionError
  | emptyFunctionKey : CoercionError
  | unsupportedForAttribute : CoercionError
deriving DecidableEq

/-- Modelled from the spec: a PropValue, the tagged union over the typed
values a prop can hold (section 3).  A function kind prop stores the raw
lookup key; a method kind prop stores a direct callable reference, which the
model represents by an opaque numeric identifier; event callback entries
appear only in prop bags handed to the wrapped component. -/
inductive PropValue where
  | str (s : String) : PropValue
  | num (m : Int) (e : Nat) : PropValue
  | bool (b : Bool) : PropValue
  | fnKey (k : String) : PropValue
  | callable (id : Nat) : PropValue
  | json (v : JsonVal) : PropValue
  | eventCb (ev : String) : PropValue

/-- Modelled from the spec: the diagnostic channel records (section 7):
coercion failures and unresolved callable lookups are reported, never
thrown. -/
inductive Diag where
  | coercionFailed (prop : String) (e : CoercionError) : Diag
  | unresolvedCallable (key : String) : Diag

/-- Modelled from the spec: the lifecycle states of the element (section
4.7). -/
inductive Life where
  | unattached : Life
  | connected : Life
  | disconnected : Life
deriving DecidableEq

/-- Modelled from the spec: one PropSpec entry, a camelCase name and a kind
(section 3); the attribute name is derived by camelToKebab. -/
structure PropSpec where
  name : String
  kind : Kind
deriving DecidableEq

/-- A render operation recorded by the RenderScheduler: the identifier of the
mounted instance it updated and the prop bag it observed. -/
structure RenderOp where
  mountId : Nat
  bag : String → Option PropValue

/-- The mounted wrapped-component instance: its identifier and the prop bag
of its latest render. -/
structure MountSt where
  id : Nat
  bag : String → Option PropValue

/-- A DOM event dispatched by the EventBridge on the host element. -/
structure EventRec where
  etype : String
  detail : JsonVal
  bubbles : Bool

/-- Modelled from the spec: the per element instance state (section 3,
ElementInstanceState) together with the observable histories the model
records: performed renders, dispatched events and surfaced diagnostics. -/
structure ElemState where
  specs : List PropSpec
  events : List String
  props : String → Option PropValue
  attrs : String → Option String
  life : Life
  mount : Option MountSt
  nextId : Nat
  pending : Bool
  renders : List RenderOp
  dispatched : List EventRec
  diags : List Diag

/-! ## The type coercion engine -/

/-- Modelled from the spec: coerce of the TypeCoercionEngine (section 4.1).
String is identity; number is a full floating point parse failing on non
numeric input; boolean accepts exactly the literals true and false; json
parses the whole text as JSON; function validates a non empty lookup key and
stores it unresolved; method is not coercible from an attribute at all. -/
def coerce : Kind → String → Except CoercionError PropValue
  | .string, s => .ok (.str s)
  | .number, s =>
    match parseNumber s with
    | some p => .ok (.num p.1 p.2)
    | none => .error .invalidNumber
  | .boolean, s =>
    if s = "true" then .ok (.bool true)
    else if s = "false" then .ok (.bool false)
    else .error .invalidBoolean
  | .function, s => if s.isEmpty then .error .emptyFunctionKey else .ok (.fnKey s)
  | .method, _ => .error .unsupportedForAttribute
  | .json, s =>
    match parseJsonText s with
    | some v => .ok (.json v)
    | none => .error .invalidJSON

/-! ## State helpers -/

/-- Pointwise update of a string keyed partial map. -/
def updateF {α : Type} (f : String → Option α) (k : String) (v : Option α) :
    String → Option α :=
  fun x => if x = k then v else f x

/-- Whether a prop with the given camelCase name is declared. -/
def hasSpec (specs : List PropSpec) (n : String) : Bool :=
  specs.any (fun ps => ps.name == n)

/-- Find the PropSpec whose derived kebab-case attribute name matches. -/
def findSpecA (specs : List PropSpec) (a : String) : Option PropSpec :=
  specs.find? (fun ps => camelToKebab ps.name == a)

/-- Uppercase the first character of a string. -/
def capitalizeA (s : String) : String :=
  match s.data with
  | [] => ""
  | c :: r => String.mk (upperA c :: r)

/-- Lowercase every character of a string. -/
def lowerAll (s : String) : String :=
  String.mk (s.data.map lowerA)

/-- Drop a leading lowercase on from a character list. -/
def stripOn : List Char → List Char
  | 'o' :: 'n' :: r => r
  | cs => cs

/-- Modelled from the spec: the conventional callback prop name for a
declared event, on followed by the capitalized event name (section 4.6). -/
def callbackPropName (ev : String) : String :=
  "on" ++ capitalizeA ev

/-- Modelled from the spec: the derived DOM event type of a declared event
name, the leading on stripped and the rest lowercased (sections 3 and 4.6 and
the events recipe of the docs). -/
def derivedEventType (ev : String) : String :=
  lowerAll (String.mk (stripOn ev.data))

/-! ## The element operations -/

/-- Modelled from the spec: a fresh element instance before first connection
(section 4.7, Unattached): declared defaults are absence of value, no mount
exists, nothing is scheduled and no history has been produced. -/
def initElem (specs : List PropSpec) (events : List String) : ElemState :=
  { specs := specs
    events := events
    props := fun _ => none
    attrs := fun _ => none
    life := .unattached
    mount := none
    nextId := 0
    pending := false
    renders := []
    dispatched := []
    diags := [] }

/-- Modelled from the spec: scheduleRender of the RenderScheduler (section
4.5): idempotent within one turn, and inert unless the element is connected
(section 4.7). -/
def scheduleRender (st : ElemState) : ElemState :=
  { st with pending := st.pending || decide (st.life = Life.connected) }

/-- Modelled from the spec: the get accessor of the PropertyAccessorLayer
(section 4.2): returns the current stored value, not a re-derivation from the
attribute; only declared props expose an accessor. -/
def readProperty (n : String) (st : ElemState) : Option PropValue :=
  if hasSpec st.specs n then st.props n else none

/-- Modelled from the spec: the set accessor of the PropertyAccessorLayer
(section 4.2): stores the pre-typed value directly into element state,
bypassing coercion, never touching the DOM attribute, then requests a
render. -/
def setProperty (n : String) (v : PropValue) (st : ElemState) : ElemState :=
  if hasSpec st.specs n then
    scheduleRender { st with props := updateF st.props n (some v) }
  else st

/-- Modelled from the spec: the AttributeSyncBridge reaction to an attribute
set or change (section 4.3): the DOM attribute store always takes the raw
string; if the attribute matches a declared PropSpec the raw string is
coerced, on success the typed value is written into state and a render is
requested, on failure the previous value is retained, a diagnostic is
surfaced and rendering still proceeds with the stale value (section 7);
attributes that match no PropSpec are ignored by the bridge. -/
def setAttribute (a : String) (raw : String) (st : ElemState) : ElemState :=
  match findSpecA st.specs a with
  | none => { st with attrs := updateF st.attrs a (some raw) }
  | some ps =>
    match coerce ps.kind raw with
    | .ok v =>
      scheduleRender { st with attrs := updateF st.attrs a (some raw),
                               props := updateF st.props ps.name (some v) }
    | .error e =>
      scheduleRender { st with attrs := updateF st.attrs a (some raw),
                               diags := st.diags ++ [.coercionFailed ps.name e] }

/-- Modelled from the spec: attribute removal reverts the matching prop to
its declared default, which the model takes as absence of value (section 4.3
and the design note of section 9). -/
def removeAttribute (a : String) (st : ElemState) : ElemState :=
  match findSpecA st.specs a with
  | none => { st with attrs := updateF st.attrs a none }
  | some ps =>
    scheduleRender { st with attrs := updateF st.attrs a none,
                             props := updateF st.props ps.name none }

/-- Modelled from the spec: entering the Connected lifecycle state on DOM
insertion triggers the first mount, which the RenderScheduler performs at its
flush (sections 4.5 and 4.7). -/
def connect (st : ElemState) : ElemState :=
  scheduleRender { st with life := .connected }

/-- Modelled from the spec: entering the Disconnected lifecycle state tears
down the mounted instance and suppresses any scheduled but unflushed render,
while element state is retained (sections 4.5, 4.7 and 5). -/
def disconnect (st : ElemState) : ElemState :=
  { st with life := .disconnected, mount := none, pending := false }

/-- Modelled from the spec: the full prop bag built at flush (section 4.5):
the stored prop values, and for each declared event the conventional
callback prop, supplied without requiring a PropSpec entry (section 4.6). -/
def buildBag (st : ElemState) : String → Option PropValue :=
  fun k =>
    match st.events.find? (fun ev => callbackPropName ev == k) with
    | some ev => some (.eventCb ev)
    | none => st.props k

/-- Modelled from the spec: the RenderScheduler flush at the end of the turn
(section 4.5): if the element is connected and a render is pending, build the
full prop bag and mount (first time) or update (subsequent times) the single
wrapped component instance; otherwise do nothing. -/
def flush (st : ElemState) : ElemState :=
  if st.life = Life.connected ∧ st.pending = true then
    match st.mount with
    | some m =>
      { st with pending := false
                mount := some ⟨m.id, buildBag st⟩
                renders := st.renders ++ [⟨m.id, buildBag st⟩] }
    | none =>
      { st with pending := false
                mount := some ⟨st.nextId, buildBag st⟩
                nextId := st.nextId + 1
                renders := st.renders ++ [⟨st.nextId, buildBag st⟩] }
  else st

/-- Modelled from the spec: the EventBridge callback for a declared event
(section 4.6): invoked by the wrapped component with a payload, it dispatches
exactly one DOM event of the derived type on the host element, the payload
carried under detail, not bubbling by default. -/
def invokeEventCallback (ev : String) (payload : JsonVal) (st : ElemState) :
    ElemState :=
  if st.events.contains ev then
    { st with dispatched := st.dispatched ++ [⟨derivedEventType ev, payload, false⟩] }
  else st

/-- Modelled from the spec: the CallableBindingResolver for a function kind
prop (section 4.4): the stored key is looked up in the single global scope at
the moment the wrapped component invokes the callback; if the key is absent
the invocation is a no-op and a diagnostic is reported; the result records
which callable was applied to which payload, or none for a no-op. -/
def invokeFunctionProp (scope : String → Option Nat) (n : String)
    (payload : JsonVal) (st : ElemState) : ElemState × Option (Nat × JsonVal) :=
  match st.props n with
  | some (.fnKey k) =>
    match scope k with
    | some c => (st, some (c, payload))
    | none => ({ st with diags := st.diags ++ [.unresolvedCallable k] }, none)
  | _ => (st, none)

/-- Field lookup in a JSON object value. -/
def jlookup (v : JsonVal) (k : String) : Option JsonVal :=
  match v with
  | .jobj fs => (fs.find? (fun p => p.1 == k)).map Prod.snd
  | _ => none

/-- The markup of the mounted instance as a view of its latest rendered bag;
an element with no mount shows nothing. -/
def innerHTML (view : (String → Option PropValue) → String) (st : ElemState) :
    String :=
  match st.mount with
  | some m => view m.bag
  | none => ""

/-! ## Write and operation sequences -/

/-- A single synchronous write within one execution turn: either a typed
property write or a raw attribute write. -/
inductive Write where
  | prop (n : String) (v : PropValue) : Write
  | attr (a : String) (raw : String) : Write

/-- The effective target of a write: the prop it updates and the stored
value, or none when the write does not change prop state (an undeclared prop,
an unmatched attribute, or a failed coercion). -/
def writeTarget (specs : List PropSpec) : Write → Option (String × PropValue)
  | .prop n v => if hasSpec specs n then some (n, v) else none
  | .attr a raw =>
    match findSpecA specs a with
    | some ps =>
      match coerce ps.kind raw with
      | .ok v => some (ps.name, v)
      | .error _ => none
    | none => none

/-- Apply one write to the element state. -/
def applyWrite : Write → ElemState → ElemState
  | .prop n v, st => setProperty n v st
  | .attr a raw, st => setAttribute a raw st

/-- Apply a sequence of writes, in order, within one turn. -/
def applyWrites (ws : List Write) (st : ElemState) : ElemState :=
  ws.foldl (fun s w => applyWrite w s) st

/-- The last effective value a write sequence assigns to a prop, if any. -/
def lastVal (specs : List PropSpec) : List Write → String → Option PropValue
  | [], _ => none
  | w :: ws, n =>
    match lastVal specs ws n with
    | some v => some v
    | none =>
      match writeTarget specs w with
      | some t => if n = t.1 then some t.2 else none
      | none => none

/-- Every operation the model exposes on an element instance. -/
inductive Op where
  | setP (n : String) (v : PropValue) : Op
  | setA (a : String) (raw : String) : Op
  | removeA (a : String) : Op
  | conn : Op
  | disc : Op
  | flushOp : Op
  | invokeEv (ev : String) (payload : JsonVal) : Op
  | invokeFn (scope : String → Option Nat) (n : String) (payload : JsonVal) : Op

/-- Apply one operation to the element state. -/
def applyOp : Op → ElemState → ElemState
  | .setP n v, st => setProperty n v st
  | .setA a raw, st => setAttribute a raw st
  | .removeA a, st => removeAttribute a st
  | .conn, st => connect st
  | .disc, st => disconnect st
  | .flushOp, st => flush st
  | .invokeEv ev p, st => invokeEventCallback ev p st
  | .invokeFn scope n p, st => (invokeFunctionProp scope n p st).1

/-- Apply a sequence of operations, in order. -/
def applyOps (ops : List Op) (st : ElemState) : ElemState :=
  ops.foldl (fun s o => applyOp o s) st

/-- No mount with the given identifier can ever be rendered again: the
identifier is below the allocation counter and differs from any live
mount. -/
def avoids (m : Nat) (st : ElemState) : Prop :=
  m < st.nextId ∧ ∀ mt : MountSt, st.mount = some mt → mt.id ≠ m ∧ mt.id < st.nextId

/-! ## Concrete elements used by the scenario witnesses -/

/-- The web-greeting element of the complete example: one string prop. -/
def webGreetingSpecs : List PropSpec := [⟨"name", Kind.string⟩]

/-- The view of the greeting component: a heading greeting the name prop. -/
def greetView (bag : String → Option PropValue) : String :=
  "<h1>Hello, " ++
    (match bag ("name") with
     | some (.str s) => s
     | _ => "") ++ "</h1>"

/-- The greeting element after the programmatic example of the docs: the name
prop set to Justin, the element appended, and the turn flushed. -/
def stGreetJustin : ElemState :=
  flush (connect (setProperty ("name") (.str ("Justin")) (initElem webGreetingSpecs [])))

/-- The greeting element right after a second property write, still in the
same turn, before the scheduler flushes. -/
def stGreetDeclare : ElemState :=
  setProperty ("name") (.str ("I do declare")) stGreetJustin

/-- A counter element with one number prop, connected. -/
def stCount : ElemState := connect (initElem [⟨"count", Kind.number⟩] [])

/-- The counter element after a valid attribute write of 42. -/
def stCount42 : ElemState := setAttribute ("count") ("42") stCount

/-- A payload element with one json prop. -/
def stPayload : ElemState := initElem [⟨"payload", Kind.json⟩] []

/-- A theme-select element with one function prop, the attribute set to the
global key globalFn as in the function props example. -/
def stTheme : ElemState :=
  setAttribute (camelToKebab ("handleClick")) ("globalFn")
    (initElem [⟨"handleClick", Kind.function⟩] [])

/-- A class-greeting element with one method prop. -/
def stMethodEl : ElemState := initElem [⟨"sayHello", Kind.method⟩] []

/-- An element declaring the syncRequest event and no props. -/
def stEvents : ElemState := initElem [] [("syncRequest")]

/-- The payload with one field ok set to true. -/
def payloadOk : JsonVal := .jobj [(("ok"), .jbool true)]

/-- A two prop element used by the batching witness, connected. -/
def stBatch : ElemState :=
  connect (initElem [⟨"name", Kind.string⟩, ⟨"count", Kind.number⟩] [])

/-- The write burst of the batching witness: two writes to the same prop and
one attribute write to another. -/
def batchWrites : List Write :=
  [.prop ("name") (.str ("a")), .prop ("name") (.str ("b")), .attr ("count") ("7")]

/-- The greeting element with a render scheduled on its first mount but not
yet flushed, used by the cancellation witness. -/
def stPending : ElemState := setProperty ("name") (.str ("B")) stGreetJustin

/-- The live mount of the cancellation witness before disconnection. -/
def mtPending : MountSt := stPending.mount.getD ⟨0, fun _ => none⟩

/-- Operations attempted after disconnection in the cancellation witness:
reconnect and flush, producing a render against a fresh mount. -/
def afterDiscOps : List Op := [Op.conn, Op.flushOp]

/-! ## Helper lemmas -/

theorem updateF_same {α : Type} (f : String → Option α) (k : String) (v : Option α) :
    updateF f k v k = v := by
  simp [updateF]

theorem updateF_ne {α : Type} (f : String → Option α) (k x : String) (v : Option α)
    (h : x ≠ k) : updateF f k v x = f x := by
  simp [updateF, h]

theorem upperA_lowerA (c : Char) (h : isUpperA c = true) : upperA (lowerA c) = c := by
  simp [isUpperA, caseTable] at h
  rcases h with h|h|h|h|h|h|h|h|h|h|h|h|h|h|h|h|h|h|h|h|h|h|h|h|h|h <;> subst h <;> decide

theorem kebabToCamelL_cons_ne (c : Char) (r : List Char) (hc : c ≠ '-') :
    kebabToCamelL (c :: r) = c :: kebabToCamelL r := by
  rw [kebabToCamelL.eq_def]
  simp [hc]

theorem kebabToCamelL_dash (d : Char) (r : List Char) :
    kebabToCamelL ('-' :: d :: r) = upperA d :: kebabToCamelL r := by
  rw [kebabToCamelL.eq_def]
  simp

theorem kebab_camel_roundtripL (cs : List Char) (h : ∀ c ∈ cs, c ≠ '-') :
    kebabToCamelL (camelToKebabL cs) = cs := by
  induction cs with
  | nil => rfl
  | cons c r ih =>
    have hc : c ≠ '-' := h c (List.mem_cons_self c r)
    have hr : ∀ x ∈ r, x ≠ '-' := fun x hx => h x (List.mem_cons_of_mem c hx)
    by_cases hu : isUpperA c = true
    · simp only [camelToKebabL, kebabChar, hu, if_true, List.cons_append,
        List.nil_append]
      rw [kebabToCamelL_dash, upperA_lowerA c hu, ih hr]
    · simp only [camelToKebabL, kebabChar, hu, if_false, Bool.false_eq_true,
        List.cons_append, List.nil_append]
      rw [kebabToCamelL_cons_ne c _ hc, ih hr]

theorem kebab_camel_roundtrip (s : String) (h : ∀ c ∈ s.data, c ≠ '-') :
    kebabToCamel (camelToKebab s) = s := by
  cases s with
  | mk data => exact congrArg String.mk (kebab_camel_roundtripL data h)

/-- C6: for every PropSpec, the derived attributeName is a pure injective
function of the camelCase prop name, camelCase to kebab-case, and the inverse
kebab-to-camel conversion reproduces the name exactly; in particular
stringProp maps to string-prop and back, and colorMode maps to color-mode. -/
theorem claim6_attr_name_roundtrip_injective (name : String)
    (h : ∀ c ∈ name.data, c ≠ '-') :
    kebabToCamel (camelToKebab name) = name ∧
    (∀ other : String, (∀ c ∈ other.data, c ≠ '-') →
      camelToKebab other = camelToKebab name → other = name) ∧
    camelToKebab ("stringProp") = "string-prop" ∧
    kebabToCamel ("string-prop") = "stringProp" ∧
    camelToKebab ("colorMode") = "color-mode" := by
  refine ⟨kebab_camel_roundtrip name h, ?_, by decide, by decide, by decide⟩
  intro other ho heq
  have h2 := congrArg kebabToCamel heq
  rw [kebab_camel_roundtrip other ho, kebab_camel_roundtrip name h] at h2
  exact h2

/-- Witness for C6 at the name stringProp. -/
theorem claim6_witness :
    (∀ c ∈ ("stringProp").data, c ≠ '-') ∧
    kebabToCamel (camelToKebab ("stringProp")) = "stringProp" :=
  ⟨by decide, (claim6_attr_name_roundtrip_injective ("stringProp") (by decide)).1⟩

theorem hasSpec_of_findSpecA {specs : List PropSpec} {a : String} {ps : PropSpec}
    (hf : findSpecA specs a = some ps) : hasSpec specs ps.name = true := by
  have hmem : ps ∈ specs := List.mem_of_find?_eq_some hf
  exact List.any_eq_true.mpr ⟨ps, hmem, by simp⟩

theorem buildBag_no_event (st : ElemState) (n : String)
    (h : ∀ ev ∈ st.events, callbackPropName ev ≠ n) :
    buildBag st n = st.props n := by
  have hnone : st.events.find? (fun ev => callbackPropName ev == n) = none :=
    List.find?_eq_none.mpr (by intro x hx; simpa using h x hx)
  simp [buildBag, hnone]

theorem flush_appends (st : ElemState) (hl : st.life = Life.connected)
    (hp : st.pending = true) :
    ∃ r : RenderOp, (flush st).renders = st.renders ++ [r] ∧ r.bag = buildBag st := by
  unfold flush
  rw [if_pos ⟨hl, hp⟩]
  cases hm : st.mount with
  | some m => exact ⟨⟨m.id, buildBag st⟩, rfl, rfl⟩
  | none => exact ⟨⟨st.nextId, buildBag st⟩, rfl, rfl⟩

/-- C1: for every prop of kind string, number, boolean or json, setting the
kebab-case attribute to a raw string that coerces successfully and then
immediately reading the camelCase property returns the typed coerced value
per the kind, never the raw attribute string: identity for string, a decimal
floating point parse for number, the true and false literals for boolean and
the JSON parse result for json. -/
theorem claim1_attr_then_property_read (st : ElemState) (ps : PropSpec)
    (raw : String) (v : PropValue)
    (hf : findSpecA st.specs (camelToKebab ps.name) = some ps)
    (hkind : ps.kind = Kind.string ∨ ps.kind = Kind.number ∨
      ps.kind = Kind.boolean ∨ ps.kind = Kind.json)
    (hc : coerce ps.kind raw = .ok v) :
    readProperty ps.name (setAttribute (camelToKebab ps.name) raw st) = some v ∧
    (ps.kind = Kind.string → v = .str raw) ∧
    (ps.kind = Kind.number → ∃ m e, v = .num m e) ∧
    (ps.kind = Kind.boolean → ∃ b, v = .bool b) ∧
    (ps.kind = Kind.json → ∃ j, v = .json j) := by
  have h1 : hasSpec st.specs ps.name = true := hasSpec_of_findSpecA hf
  refine ⟨?_, ?_, ?_, ?_, ?_⟩
  · simp [setAttribute, hf, hc, readProperty, scheduleRender, h1, updateF_same]
  · intro hk
    rw [hk] at hc
    simp [coerce] at hc
    exact hc.symm
  · intro hk
    rw [hk] at hc
    simp only [coerce] at hc
    cases hp : parseNumber raw with
    | none => rw [hp] at hc; simp at hc
    | some p => rw [hp] at hc; simp at hc; exact ⟨p.1, p.2, hc.symm⟩
  · intro hk
    rw [hk] at hc
    simp only [coerce] at hc
    by_cases ht : raw = "true"
    · rw [if_pos ht] at hc; simp at hc; exact ⟨true, hc.symm⟩
    · rw [if_neg ht] at hc
      by_cases hf2 : raw = "false"
      · rw [if_pos hf2] at hc; simp at hc; exact ⟨false, hc.symm⟩
      · rw [if_neg hf2] at hc; simp at hc
  · intro hk
    rw [hk] at hc
    simp only [coerce] at hc
    cases hp : parseJsonText raw with
    | none => rw [hp] at hc; simp at hc
    | some j => rw [hp] at hc; simp at hc; exact ⟨j, hc.symm⟩

/-- Witness for C1: the json scenario of the spec; the attribute text is a
three element array and the property read returns the ordered parsed
sequence, not the raw string. -/
theorem claim1_witness :
    readProperty ("payload")
        (setAttribute (camelToKebab ("payload")) ("[1,2,\"x\"]") stPayload) =
      some (.json (.jarr [.jnum 1 0, .jnum 2 0, .jstr ("x")])) :=
  (claim1_attr_then_property_read stPayload ⟨"payload", Kind.json⟩ ("[1,2,\"x\"]")
    (.json (.jarr [.jnum 1 0, .jnum 2 0, .jstr ("x")]))
    (by rfl) (by decide) (by rfl)).1

/-- C2: a failed coercion never throws across the bridge boundary; the
previously stored valid value is left in place, so a subsequent property
read still returns it, a diagnostic is surfaced, and rendering still
proceeds observing the stale value. -/
theorem claim2_failed_coercion_stale_value (st : ElemState) (ps : PropSpec)
    (a raw : String) (e : CoercionError) (vOld : PropValue)
    (hf : findSpecA st.specs a = some ps)
    (hc : coerce ps.kind raw = .error e)
    (hOld : st.props ps.name = some vOld)
    (hNoEv : ∀ ev ∈ st.events, callbackPropName ev ≠ ps.name) :
    readProperty ps.name (setAttribute a raw st) = some vOld ∧
    (setAttribute a raw st).diags = st.diags ++ [.coercionFailed ps.name e] ∧
    (st.life = Life.connected →
      ∃ r : RenderOp,
        (flush (setAttribute a raw st)).renders = (setAttribute a raw st).renders ++ [r] ∧
        r.bag ps.name = some vOld) := by
  have h1 : hasSpec st.specs ps.name = true := hasSpec_of_findSpecA hf
  have hst : setAttribute a raw st =
      scheduleRender { st with attrs := updateF st.attrs a (some raw),
                               diags := st.diags ++ [.coercionFailed ps.name e] } := by
    simp [setAttribute, hf, hc]
  refine ⟨?_, ?_, ?_⟩
  · rw [hst]
    simp [readProperty, scheduleRender, h1, hOld]
  · rw [hst]
    simp [scheduleRender]
  · intro hl
    have hl2 : (setAttribute a raw st).life = Life.connected := by
      rw [hst]; simp [scheduleRender, hl]
    have hp2 : (setAttribute a raw st).pending = true := by
      rw [hst]; simp [scheduleRender, hl]
    obtain ⟨r, hr, hbag⟩ := flush_appends (setAttribute a raw st) hl2 hp2
    refine ⟨r, hr, ?_⟩
    rw [hbag, buildBag_no_event]
    · rw [hst]; simp [scheduleRender, hOld]
    · intro ev hev
      apply hNoEv
      rw [hst] at hev
      simpa [scheduleRender] using hev

/-- Witness for C2: the counter scenario of the spec; after a valid write of
42 a bad attribute write abc leaves the stored number 42 readable and records
an invalid number diagnostic. -/
theorem claim2_witness :
    readProperty ("count") (setAttribute ("count") ("abc") stCount42) =
      some (.num 42 0) ∧
    (setAttribute ("count") ("abc") stCount42).diags =
      stCount42.diags ++ [.coercionFailed ("count") .invalidNumber] := by
  have h := claim2_failed_coercion_stale_value stCount42 ⟨"count", Kind.number⟩
    ("count") ("abc") .invalidNumber (.num 42 0) (by rfl) (by rfl) (by rfl) (by decide)
  exact ⟨h.1, h.2.1⟩

/-- C9: a method kind prop is never coercible from an attribute string; any
attribute write on it reports the unsupported for attribute coercion error
and leaves every stored prop value unchanged, while the prop remains settable
as a typed instance property holding a direct callable value. -/
theorem claim9_method_not_attribute_coercible (st : ElemState) (ps : PropSpec)
    (a raw : String) (cid : Nat)
    (hf : findSpecA st.specs a = some ps)
    (hk : ps.kind = Kind.method) :
    coerce Kind.method raw = .error .unsupportedForAttribute ∧
    (∀ n, (setAttribute a raw st).props n = st.props n) ∧
    (setAttribute a raw st).diags =
      st.diags ++ [.coercionFailed ps.name .unsupportedForAttribute] ∧
    readProperty ps.name (setProperty ps.name (.callable cid) st) =
      some (.callable cid) := by
  have h1 : hasSpec st.specs ps.name = true := hasSpec_of_findSpecA hf
  have hcm : coerce Kind.method raw = .error .unsupportedForAttribute := rfl
  have hst : setAttribute a raw st =
      scheduleRender { st with attrs := updateF st.attrs a (some raw),
                               diags := st.diags ++
                                 [.coercionFailed ps.name .unsupportedForAttribute] } := by
    have hc2 : coerce ps.kind raw = .error .unsupportedForAttribute := by
      rw [hk]; exact hcm
    simp [setAttribute, hf, hc2]
  refine ⟨hcm, ?_, ?_, ?_⟩
  · intro n
    rw [hst]
    simp [scheduleRender]
  · rw [hst]
    simp [scheduleRender]
  · simp [setProperty, h1, readProperty, scheduleRender, updateF_same]

/-- Witness for C9: the class-greeting element; an attribute write on the
sayHello method prop is rejected with the unsupported for attribute error
while a direct property write of a callable is stored and readable. -/
theorem claim9_witness :
    coerce Kind.method ("whatever") = .error .unsupportedForAttribute ∧
    readProperty ("sayHello")
        (setProperty ("sayHello") (.callable 5) stMethodEl) =
      some (.callable 5) := by
  have h := claim9_method_not_attribute_coercible stMethodEl ⟨"sayHello", Kind.method⟩
    (camelToKebab ("sayHello")) ("whatever") 5 (by rfl) (by rfl)
  exact ⟨h.1, h.2.2.2⟩

/-- C5: setting an instance property stores the value directly into element
state and never writes back to or otherwise mutates any DOM attribute; all
other props are also left unchanged by the write. -/
theorem claim5_property_write_never_touches_attribute (st : ElemState)
    (n : String) (v : PropValue) (h : hasSpec st.specs n = true) :
    (setProperty n v st).attrs = st.attrs ∧
    readProperty n (setProperty n v st) = some v ∧
    (∀ m, m ≠ n → (setProperty n v st).props m = st.props m) := by
  refine ⟨?_, ?_, ?_⟩
  · simp [setProperty, h, scheduleRender]
  · simp [setProperty, h, readProperty, scheduleRender, updateF_same]
  · intro m hm
    simp [setProperty, h, scheduleRender, updateF_ne st.props n m (some v) hm]

/-- Witness for C5 on the two prop batch element. -/
theorem claim5_witness :
    (setProperty ("name") (.str ("x")) stBatch).attrs = stBatch.attrs ∧
    readProperty ("name") (setProperty ("name") (.str ("x")) stBatch) =
      some (.str ("x")) ∧
    (setProperty ("name") (.str ("x")) stBatch).props ("count") =
      stBatch.props ("count") := by
  have h := claim5_property_write_never_touches_attribute stBatch ("name")
    (.str ("x")) (by rfl)
  exact ⟨h.1, h.2.1, h.2.2 ("count") (by decide)⟩

/-- C4: a function kind prop stores its attribute string as an unresolved
lookup key; the key is resolved against the global scope only at the moment
the wrapped component invokes the callback, so the scope seen then decides
the call; if the key is absent at invocation time the invocation is a no-op
that reports a diagnostic and changes neither prop state nor renders. -/
theorem claim4_function_prop_late_binding (st : ElemState) (ps : PropSpec)
    (a key : String)
    (hf : findSpecA st.specs a = some ps)
    (hk : ps.kind = Kind.function)
    (hkey : key.isEmpty = false) :
    (setAttribute a key st).props ps.name = some (.fnKey key) ∧
    (∀ scope : String → Option Nat, ∀ c : Nat, ∀ payload : JsonVal,
      scope key = some c →
      invokeFunctionProp scope ps.name payload (setAttribute a key st) =
        (setAttribute a key st, some (c, payload))) ∧
    (∀ scope : String → Option Nat, ∀ payload : JsonVal,
      scope key = none →
      (invokeFunctionProp scope ps.name payload (setAttribute a key st)).2 = none ∧
      (invokeFunctionProp scope ps.name payload (setAttribute a key st)).1.props =
        (setAttribute a key st).props ∧
      (invokeFunctionProp scope ps.name payload (setAttribute a key st)).1.renders =
        (setAttribute a key st).renders ∧
      (invokeFunctionProp scope ps.name payload (setAttribute a key st)).1.diags =
        (setAttribute a key st).diags ++ [.unresolvedCallable key]) := by
  have hc : coerce ps.kind key = .ok (.fnKey key) := by
    rw [hk]; simp [coerce, hkey]
  have hst : setAttribute a key st =
      scheduleRender { st with attrs := updateF st.attrs a (some key),
                               props := updateF st.props ps.name (some (.fnKey key)) } := by
    simp [setAttribute, hf, hc]
  have hprop : (setAttribute a key st).props ps.name = some (.fnKey key) := by
    rw [hst]; simp [scheduleRender, updateF_same]
  refine ⟨hprop, ?_, ?_⟩
  · intro scope c payload hsc
    simp [invokeFunctionProp, hprop, hsc]
  · intro scope payload hsc
    simp [invokeFunctionProp, hprop, hsc]

/-- Witness for C4: the theme-select element with the handleClick function
prop set to the key globalFn; with the key registered the callable is
invoked with the payload, and with an empty scope the invocation is a no-op
with an unresolved callable diagnostic. -/
theorem claim4_witness :
    stTheme.props ("handleClick") = some (.fnKey ("globalFn")) ∧
    invokeFunctionProp (fun k => if k = "globalFn" then some 7 else none)
        ("handleClick") .null stTheme = (stTheme, some (7, .null)) ∧
    (invokeFunctionProp (fun _ => none) ("handleClick") .null stTheme).2 = none ∧
    (invokeFunctionProp (fun _ => none) ("handleClick") .null stTheme).1.diags =
      stTheme.diags ++ [.unresolvedCallable ("globalFn")] := by
  have h := claim4_function_prop_late_binding
    (initElem [⟨"handleClick", Kind.function⟩] []) ⟨"handleClick", Kind.function⟩
    (camelToKebab ("handleClick")) ("globalFn") (by rfl) (by rfl) (by rfl)
  have h3 := h.2.2 (fun _ => none) .null (by rfl)
  exact ⟨h.1, h.2.1 (fun k => if k = "globalFn" then some 7 else none) 7 .null (by simp),
    h3.1, h3.2.2.2⟩

/-- C7: a declared event supplies the wrapped component a callback prop named
by prefixing on to the capitalized event name, without requiring a PropSpec
entry; invoking it with a payload appends exactly one dispatched DOM event
whose type is the derived event name, whose detail carries the payload, and
which does not bubble. -/
theorem claim7_event_callback_dispatch (st : ElemState) (ev : String)
    (payload : JsonVal)
    (hfind : st.events.find? (fun e => callbackPropName e == callbackPropName ev) =
      some ev)
    (hcontains : st.events.contains ev = true)
    (hns : hasSpec st.specs (callbackPropName ev) = false) :
    buildBag st (callbackPropName ev) = some (.eventCb ev) ∧
    (invokeEventCallback ev payload st).dispatched =
      st.dispatched ++ [⟨derivedEventType ev, payload, false⟩] := by
  constructor
  · simp [buildBag, hfind]
  · simp at hcontains
    simp [invokeEventCallback, hcontains]

/-- Witness for C7: the syncRequest scenario; the callback prop is named
onSyncRequest, the dispatched event type is syncrequest, the detail field ok
is true and the event does not bubble. -/
theorem claim7_witness :
    buildBag stEvents (callbackPropName ("syncRequest")) =
      some (.eventCb ("syncRequest")) ∧
    (invokeEventCallback ("syncRequest") payloadOk stEvents).dispatched =
      stEvents.dispatched ++ [⟨derivedEventType ("syncRequest"), payloadOk, false⟩] ∧
    derivedEventType ("syncRequest") = "syncrequest" ∧
    callbackPropName ("syncRequest") = "onSyncRequest" ∧
    jlookup payloadOk ("ok") = some (.jbool true) := by
  have h := claim7_event_callback_dispatch stEvents ("syncRequest") payloadOk
    (by rfl) (by rfl) (by rfl)
  exact ⟨h.1, h.2, by rfl, by rfl, by rfl⟩

theorem setProperty_eq_pos (n : String) (v : PropValue) (st : ElemState)
    (h : hasSpec st.specs n = true) :
    setProperty n v st =
      scheduleRender { st with props := updateF st.props n (some v) } := by
  simp [setProperty, h]

theorem setProperty_eq_neg (n : String) (v : PropValue) (st : ElemState)
    (h : hasSpec st.specs n = false) : setProperty n v st = st := by
  simp [setProperty, h]

theorem setAttribute_eq_none (a raw : String) (st : ElemState)
    (hps : findSpecA st.specs a = none) :
    setAttribute a raw st = { st with attrs := updateF st.attrs a (some raw) } := by
  simp [setAttribute, hps]

theorem setAttribute_eq_ok (a raw : String) (st : ElemState) (ps : PropSpec)
    (v : PropValue) (hps : findSpecA st.specs a = some ps)
    (hco : coerce ps.kind raw = .ok v) :
    setAttribute a raw st =
      scheduleRender { st with attrs := updateF st.attrs a (some raw),
                               props := updateF st.props ps.name (some v) } := by
  simp [setAttribute, hps, hco]

theorem setAttribute_eq_err (a raw : String) (st : ElemState) (ps : PropSpec)
    (e : CoercionError) (hps : findSpecA st.specs a = some ps)
    (hco : coerce ps.kind raw = .error e) :
    setAttribute a raw st =
      scheduleRender { st with attrs := updateF st.attrs a (some raw),
                               diags := st.diags ++ [.coercionFailed ps.name e] } := by
  simp [setAttribute, hps, hco]

theorem setProperty_frame (n : String) (v : PropValue) (st : ElemState) :
    (setProperty n v st).specs = st.specs ∧
    (setProperty n v st).events = st.events ∧
    (setProperty n v st).life = st.life ∧
    (setProperty n v st).mount = st.mount ∧
    (setProperty n v st).nextId = st.nextId ∧
    (setProperty n v st).renders = st.renders ∧
    (setProperty n v st).dispatched = st.dispatched := by
  unfold setProperty
  split <;> refine ⟨?_, ?_, ?_, ?_, ?_, ?_, ?_⟩ <;> rfl

theorem setAttribute_frame (a raw : String) (st : ElemState) :
    (setAttribute a raw st).specs = st.specs ∧
    (setAttribute a raw st).events = st.events ∧
    (setAttribute a raw st).life = st.life ∧
    (setAttribute a raw st).mount = st.mount ∧
    (setAttribute a raw st).nextId = st.nextId ∧
    (setAttribute a raw st).renders = st.renders ∧
    (setAttribute a raw st).dispatched = st.dispatched := by
  refine ⟨?_, ?_, ?_, ?_, ?_, ?_, ?_⟩
  all_goals
    unfold setAttribute
    split
    · rfl
    · split <;> rfl

theorem applyWrite_frame (w : Write) (st : ElemState) :
    (applyWrite w st).specs = st.specs ∧
    (applyWrite w st).events = st.events ∧
    (applyWrite w st).life = st.life ∧
    (applyWrite w st).mount = st.mount ∧
    (applyWrite w st).nextId = st.nextId ∧
    (applyWrite w st).renders = st.renders ∧
    (applyWrite w st).dispatched = st.dispatched := by
  cases w with
  | prop n v => exact setProperty_frame n v st
  | attr a raw => exact setAttribute_frame a raw st

theorem applyWrite_props (w : Write) (st : ElemState) (n : String) :
    (applyWrite w st).props n =
      (match writeTarget st.specs w with
       | some t => if n = t.1 then some t.2 else st.props n
       | none => st.props n) := by
  cases w with
  | prop m v =>
    by_cases h : hasSpec st.specs m = true
    · simp [applyWrite, setProperty, writeTarget, h, scheduleRender, updateF]
    · simp [applyWrite, setProperty, writeTarget, h]
  | attr a raw =>
    cases hps : findSpecA st.specs a with
    | none => simp [applyWrite, setAttribute, writeTarget, hps]
    | some ps =>
      cases hco : coerce ps.kind raw with
      | ok v =>
        simp [applyWrite, setAttribute, writeTarget, hps, hco, scheduleRender, updateF]
      | error e =>
        simp [applyWrite, setAttribute, writeTarget, hps, hco, scheduleRender]

theorem applyWrite_pending_mono (w : Write) (st : ElemState) (h : st.pending = true) :
    (applyWrite w st).pending = true := by
  cases w with
  | prop m v =>
    show (setProperty m v st).pending = true
    by_cases hs : hasSpec st.specs m = true
    · rw [setProperty_eq_pos m v st hs]
      simp [scheduleRender, h]
    · rw [setProperty_eq_neg m v st (by simpa using hs)]
      exact h
  | attr a raw =>
    show (setAttribute a raw st).pending = true
    cases hps : findSpecA st.specs a with
    | none =>
      rw [setAttribute_eq_none a raw st hps]
      exact h
    | some ps =>
      cases hco : coerce ps.kind raw with
      | ok v =>
        rw [setAttribute_eq_ok a raw st ps v hps hco]
        simp [scheduleRender, h]
      | error e =>
        rw [setAttribute_eq_err a raw st ps e hps hco]
        simp [scheduleRender, h]

theorem applyWrite_eff_pending (w : Write) (st : ElemState)
    (hl : st.life = Life.connected)
    (he : (writeTarget st.specs w).isSome = true) :
    (applyWrite w st).pending = true := by
  cases w with
  | prop m v =>
    by_cases hs : hasSpec st.specs m = true
    · show (setProperty m v st).pending = true
      rw [setProperty_eq_pos m v st hs]
      simp [scheduleRender, hl]
    · simp [writeTarget, hs] at he
  | attr a raw =>
    cases hps : findSpecA st.specs a with
    | none => simp [writeTarget, hps] at he
    | some ps =>
      cases hco : coerce ps.kind raw with
      | ok v =>
        show (setAttribute a raw st).pending = true
        rw [setAttribute_eq_ok a raw st ps v hps hco]
        simp [scheduleRender, hl]
      | error e => simp [writeTarget, hps, hco] at he

theorem applyWrites_specs (ws : List Write) (st : ElemState) :
    (applyWrites ws st).specs = st.specs := by
  induction ws generalizing st with
  | nil => rfl
  | cons w ws ih =>
    have h1 : applyWrites (w :: ws) st = applyWrites ws (applyWrite w st) := rfl
    rw [h1, ih (applyWrite w st), (applyWrite_frame w st).1]

theorem applyWrites_events (ws : List Write) (st : ElemState) :
    (applyWrites ws st).events = st.events := by
  induction ws generalizing st with
  | nil => rfl
  | cons w ws ih =>
    have h1 : applyWrites (w :: ws) st = applyWrites ws (applyWrite w st) := rfl
    rw [h1, ih (applyWrite w st), (applyWrite_frame w st).2.1]

theorem applyWrites_life (ws : List Write) (st : ElemState) :
    (applyWrites ws st).life = st.life := by
  induction ws generalizing st with
  | nil => rfl
  | cons w ws ih =>
    have h1 : applyWrites (w :: ws) st = applyWrites ws (applyWrite w st) := rfl
    rw [h1, ih (applyWrite w st), (applyWrite_frame w st).2.2.1]

theorem applyWrites_renders (ws : List Write) (st : ElemState) :
    (applyWrites ws st).renders = st.renders := by
  induction ws generalizing st with
  | nil => rfl
  | cons w ws ih =>
    have h1 : applyWrites (w :: ws) st = applyWrites ws (applyWrite w st) := rfl
    rw [h1, ih (applyWrite w st), (applyWrite_frame w st).2.2.2.2.2.1]

theorem applyWrites_props (ws : List Write) (st : ElemState) (n : String) :
    (applyWrites ws st).props n =
      (match lastVal st.specs ws n with
       | some v => some v
       | none => st.props n) := by
  induction ws generalizing st with
  | nil => rfl
  | cons w ws ih =>
    have h1 : (applyWrites (w :: ws) st).props n =
        (applyWrites ws (applyWrite w st)).props n := rfl
    rw [h1, ih (applyWrite w st), (applyWrite_frame w st).1, applyWrite_props w st n]
    cases h : lastVal st.specs ws n with
    | some v => simp [lastVal, h]
    | none =>
      cases ht : writeTarget st.specs w with
      | none => simp [lastVal, h, ht]
      | some t =>
        by_cases hn : n = t.1
        · subst hn
          simp [lastVal, h, ht]
        · simp [lastVal, h, ht, hn]

theorem applyWrites_pending_mono (ws : List Write) (st : ElemState)
    (h : st.pending = true) : (applyWrites ws st).pending = true := by
  induction ws generalizing st with
  | nil => exact h
  | cons w ws ih => exact ih (applyWrite w st) (applyWrite_pending_mono w st h)

theorem applyWrites_pending (ws : List Write) (st : ElemState)
    (hl : st.life = Life.connected) (hne : ws ≠ [])
    (he : ∀ w ∈ ws, (writeTarget st.specs w).isSome = true) :
    (applyWrites ws st).pending = true := by
  cases ws with
  | nil => exact absurd rfl hne
  | cons w ws =>
    have h1 : (applyWrite w st).pending = true :=
      applyWrite_eff_pending w st hl (he w (List.mem_cons_self w ws))
    exact applyWrites_pending_mono ws (applyWrite w st) h1

/-- C3: a nonempty burst of effective property or attribute writes within
one turn on a connected element performs no render during the turn; the
single deferred flush at the end of the turn performs exactly one render,
and the bag it observes holds, for every prop, exactly the last value the
burst wrote to that prop, or the prior value when the burst did not touch
it. -/
theorem claim3_batched_single_render (st : ElemState) (ws : List Write)
    (hl : st.life = Life.connected) (hne : ws ≠ [])
    (he : ∀ w ∈ ws, (writeTarget st.specs w).isSome = true) :
    (applyWrites ws st).renders = st.renders ∧
    ∃ r : RenderOp,
      (flush (applyWrites ws st)).renders = st.renders ++ [r] ∧
      ∀ n, (∀ ev ∈ st.events, callbackPropName ev ≠ n) →
        r.bag n =
          (match lastVal st.specs ws n with
           | some v => some v
           | none => st.props n) := by
  have hrend : (applyWrites ws st).renders = st.renders := applyWrites_renders ws st
  refine ⟨hrend, ?_⟩
  have hl2 : (applyWrites ws st).life = Life.connected := by
    rw [applyWrites_life]; exact hl
  have hp2 : (applyWrites ws st).pending = true := applyWrites_pending ws st hl hne he
  obtain ⟨r, hr, hbag⟩ := flush_appends (applyWrites ws st) hl2 hp2
  refine ⟨r, by rw [hr, hrend], ?_⟩
  intro n hnoev
  rw [hbag, buildBag_no_event (applyWrites ws st) n ?hno]
  · exact applyWrites_props ws st n
  case hno =>
    intro ev hev
    apply hnoev
    rwa [applyWrites_events] at hev

/-- Witness for C3: three writes in one turn on the connected two prop
element; no render happens during the turn, the flush performs exactly one,
and the last written values b and 7 are what the bag reports. -/
theorem claim3_witness :
    lastVal stBatch.specs batchWrites ("name") = some (.str ("b")) ∧
    lastVal stBatch.specs batchWrites ("count") = some (.num 7 0) ∧
    ((applyWrites batchWrites stBatch).renders = stBatch.renders ∧
      ∃ r : RenderOp,
        (flush (applyWrites batchWrites stBatch)).renders = stBatch.renders ++ [r] ∧
        ∀ n, (∀ ev ∈ stBatch.events, callbackPropName ev ≠ n) →
          r.bag n =
            (match lastVal stBatch.specs batchWrites n with
             | some v => some v
             | none => stBatch.props n)) :=
  ⟨by rfl, by rfl,
    claim3_batched_single_render stBatch batchWrites (by rfl)
      (by simp [batchWrites]) (by decide)⟩

theorem removeAttribute_frame (a : String) (st : ElemState) :
    (removeAttribute a st).mount = st.mount ∧
    (removeAttribute a st).nextId = st.nextId ∧
    (removeAttribute a st).renders = st.renders := by
  refine ⟨?_, ?_, ?_⟩
  all_goals
    unfold removeAttribute
    split <;> rfl

theorem invokeEventCallback_frame (ev : String) (p : JsonVal) (st : ElemState) :
    (invokeEventCallback ev p st).mount = st.mount ∧
    (invokeEventCallback ev p st).nextId = st.nextId ∧
    (invokeEventCallback ev p st).renders = st.renders := by
  refine ⟨?_, ?_, ?_⟩
  all_goals
    unfold invokeEventCallback
    split <;> rfl

theorem invokeFunctionProp_frame (scope : String → Option Nat) (n : String)
    (p : JsonVal) (st : ElemState) :
    (invokeFunctionProp scope n p st).1.mount = st.mount ∧
    (invokeFunctionProp scope n p st).1.nextId = st.nextId ∧
    (invokeFunctionProp scope n p st).1.renders = st.renders := by
  refine ⟨?_, ?_, ?_⟩
  all_goals
    unfold invokeFunctionProp
    split
    all_goals first
    | rfl
    | split <;> rfl

theorem avoids_of_frame (m : Nat) (st st2 : ElemState) (h : avoids m st)
    (hmount : st2.mount = st.mount ∨ st2.mount = none)
    (hnext : st2.nextId = st.nextId) : avoids m st2 := by
  constructor
  · rw [hnext]; exact h.1
  · intro mt hmt
    cases hmount with
    | inl he =>
      rw [he] at hmt
      have h2 := h.2 mt hmt
      exact ⟨h2.1, by rw [hnext]; exact h2.2⟩
    | inr he =>
      rw [he] at hmt
      cases hmt

theorem applyOp_step (m : Nat) (op : Op) (st : ElemState) (h : avoids m st) :
    avoids m (applyOp op st) ∧
    ∀ r ∈ (applyOp op st).renders, r ∈ st.renders ∨ r.mountId ≠ m := by
  cases op with
  | setP n v =>
    have hf := setProperty_frame n v st
    exact ⟨avoids_of_frame m st _ h (Or.inl hf.2.2.2.1) hf.2.2.2.2.1,
      fun r hr => Or.inl (by simp only [applyOp] at hr; rwa [hf.2.2.2.2.2.1] at hr)⟩
  | setA a raw =>
    have hf := setAttribute_frame a raw st
    exact ⟨avoids_of_frame m st _ h (Or.inl hf.2.2.2.1) hf.2.2.2.2.1,
      fun r hr => Or.inl (by simp only [applyOp] at hr; rwa [hf.2.2.2.2.2.1] at hr)⟩
  | removeA a =>
    have hf := removeAttribute_frame a st
    exact ⟨avoids_of_frame m st _ h (Or.inl hf.1) hf.2.1,
      fun r hr => Or.inl (by simp only [applyOp] at hr; rwa [hf.2.2] at hr)⟩
  | conn =>
    exact ⟨avoids_of_frame m st _ h (Or.inl rfl) rfl, fun r hr => Or.inl hr⟩
  | disc =>
    refine ⟨⟨h.1, ?_⟩, fun r hr => Or.inl hr⟩
    intro mt hmt
    simp [applyOp, disconnect] at hmt
  | invokeEv ev p =>
    have hf := invokeEventCallback_frame ev p st
    exact ⟨avoids_of_frame m st _ h (Or.inl hf.1) hf.2.1,
      fun r hr => Or.inl (by simp only [applyOp] at hr; rwa [hf.2.2] at hr)⟩
  | invokeFn sc n p =>
    have hf := invokeFunctionProp_frame sc n p st
    exact ⟨avoids_of_frame m st _ h (Or.inl hf.1) hf.2.1,
      fun r hr => Or.inl (by simp only [applyOp] at hr; rwa [hf.2.2] at hr)⟩
  | flushOp =>
    show avoids m (flush st) ∧ ∀ r ∈ (flush st).renders, r ∈ st.renders ∨ r.mountId ≠ m
    by_cases hc : st.life = Life.connected ∧ st.pending = true
    · unfold flush
      rw [if_pos hc]
      cases hm : st.mount with
      | some mt =>
        have hmt := h.2 mt hm
        constructor
        · refine ⟨h.1, ?_⟩
          intro mt2 hmt2
          have h3 : mt2 = ⟨mt.id, buildBag st⟩ := by simpa using hmt2.symm
          rw [h3]
          exact ⟨hmt.1, hmt.2⟩
        · intro r hr
          simp at hr
          cases hr with
          | inl h4 => exact Or.inl h4
          | inr h4 =>
            right
            rw [h4]
            exact hmt.1
      | none =>
        constructor
        · refine ⟨Nat.lt_succ_of_lt h.1, ?_⟩
          intro mt2 hmt2
          have h3 : mt2 = ⟨st.nextId, buildBag st⟩ := by simpa using hmt2.symm
          rw [h3]
          exact ⟨(Nat.ne_of_lt h.1).symm, Nat.lt_succ_self st.nextId⟩
        · intro r hr
          simp at hr
          cases hr with
          | inl h4 => exact Or.inl h4
          | inr h4 =>
            right
            rw [h4]
            exact (Nat.ne_of_lt h.1).symm
    · unfold flush
      rw [if_neg hc]
      exact ⟨h, fun r hr => Or.inl hr⟩

theorem applyOps_steps (m : Nat) (ops : List Op) (st : ElemState) (h : avoids m st) :
    ∀ r ∈ (applyOps ops st).renders, r ∈ st.renders ∨ r.mountId ≠ m := by
  induction ops generalizing st with
  | nil => intro r hr; exact Or.inl hr
  | cons op rest ih =>
    intro r hr
    have step := applyOp_step m op st h
    have hr2 := ih (applyOp op st) step.1 r hr
    cases hr2 with
    | inl hmem => exact step.2 r hmem
    | inr hne => exact Or.inr hne

/-- C8: disconnecting an element with a scheduled but unflushed render
suppresses that render entirely: the flush right after disconnection performs
no render, and no operation sequence whatsoever can ever produce a render
against the torn down mount again. -/
theorem claim8_disconnect_cancels_render (st : ElemState) (mt : MountSt)
    (ops : List Op)
    (hm : st.mount = some mt) (hn : mt.id < st.nextId) (hp : st.pending = true) :
    (flush (disconnect st)).renders = st.renders ∧
    ∀ r ∈ (applyOps ops (disconnect st)).renders,
      r ∈ st.renders ∨ r.mountId ≠ mt.id := by
  constructor
  · have hno : ¬((disconnect st).life = Life.connected ∧
        (disconnect st).pending = true) := by
      simp [disconnect]
    unfold flush
    rw [if_neg hno]
    rfl
  · have hav : avoids mt.id (disconnect st) := by
      constructor
      · exact hn
      · intro mt2 hmt2
        simp [disconnect] at hmt2
    exact applyOps_steps mt.id ops (disconnect st) hav

/-- Witness for C8: the greeting element with a second render scheduled is
disconnected; the subsequent flush leaves the render history unchanged, and
even a reconnect followed by a flush only ever renders against a fresh
mount, never the torn down one. -/
theorem claim8_witness :
    (flush (disconnect stPending)).renders = stPending.renders ∧
    ∀ r ∈ (applyOps afterDiscOps (disconnect stPending)).renders,
      r ∈ stPending.renders ∨ r.mountId ≠ mtPending.id :=
  claim8_disconnect_cancels_render stPending mtPending afterDiscOps
    (by rfl) (by decide) (by rfl)

/-- Counterexample to C10: in the programmatic greeting scenario the name
prop is set to a new value and innerHTML is read within the same turn,
before the scheduler flush; the markup still shows the previous render and
does not yet reflect the newly set value, contradicting the claim that the
new markup is observable synchronously with no microtask boundary. -/
theorem claim10_counterexample :
    stGreetDeclare.life = Life.connected ∧
    readProperty ("name") stGreetDeclare = some (.str ("I do declare")) ∧
    innerHTML greetView stGreetDeclare = "<h1>Hello, Justin</h1>" ∧
    ¬ innerHTML greetView stGreetDeclare = "<h1>Hello, I do declare</h1>" := by
  refine ⟨rfl, rfl, rfl, ?_⟩
  decide

/-- C10 amended: the rendered output of a property write on a connected
greeting element is observable only after the scheduler flushes at the end
of the turn; before the flush innerHTML still shows the markup of the
previous render, and after the flush it reflects the newly set value. -/
theorem claim10_render_visible_after_flush (prev next : String) :
    innerHTML greetView
        (setProperty ("name") (.str next)
          (flush (connect (setProperty ("name") (.str prev)
            (initElem webGreetingSpecs []))))) =
      "<h1>Hello, " ++ prev ++ "</h1>" ∧
    innerHTML greetView
        (flush (setProperty ("name") (.str next)
          (flush (connect (setProperty ("name") (.str prev)
            (initElem webGreetingSpecs []))))))  =
      "<h1>Hello, " ++ next ++ "</h1>" := by
  constructor
  · rfl
  · rfl
